import Mathlib

/-!
Verification of the growth/aggregation engine of the vehicle-registration
dashboard (src/data/processor.py and src/utils/calculations.py).

The pandas data frames are embedded as lists of records.  Float columns are
modelled by exact rationals, except where the code can produce IEEE special
values: there the type `PVal` (a rational together with `+inf`, `-inf` and
`NaN`) mirrors the float semantics of the operations actually used by the
code (subtraction, division, multiplication by 100, and pandas
`replace([inf, -inf], nan)`).

String-keyed sorting (`sort_values` over category/manufacturer columns) is
modelled by sorting the character lists underlying the strings; this is the
same lexicographic order pandas uses on the string values themselves.
-/

/-- IEEE-style value of a pandas float cell: an exact rational, an infinity,
or NaN (pandas' missing-value marker for float columns). -/
inductive PVal where
  | num : ℚ → PVal
  | pinf : PVal
  | ninf : PVal
  | nan : PVal
deriving DecidableEq, Repr

namespace PVal

/-- Float subtraction, as used in `registrations - prev_registrations`. -/
def sub : PVal → PVal → PVal
  | nan, _ => nan
  | _, nan => nan
  | num a, num b => num (a - b)
  | num _, pinf => ninf
  | num _, ninf => pinf
  | pinf, num _ => pinf
  | ninf, num _ => ninf
  | pinf, pinf => nan
  | pinf, ninf => pinf
  | ninf, pinf => ninf
  | ninf, ninf => nan

/-- Float division: `0/0` is NaN, `a/0` for `a ≠ 0` is a signed infinity,
finite division is exact. -/
def div : PVal → PVal → PVal
  | nan, _ => nan
  | _, nan => nan
  | num a, num b =>
      if b = 0 then (if a = 0 then nan else if 0 < a then pinf else ninf)
      else num (a / b)
  | num _, pinf => num 0
  | num _, ninf => num 0
  | pinf, num b => if 0 ≤ b then pinf else ninf
  | ninf, num b => if 0 ≤ b then ninf else pinf
  | pinf, pinf => nan
  | pinf, ninf => nan
  | ninf, pinf => nan
  | ninf, ninf => nan

/-- Float multiplication by the constant 100 (turning a ratio into percent). -/
def mul100 : PVal → PVal
  | num a => num (a * 100)
  | pinf => pinf
  | ninf => ninf
  | nan => nan

/-- Pandas `replace([np.inf, -np.inf], np.nan)` applied to one cell. -/
def replaceInfWithNan : PVal → PVal
  | pinf => nan
  | ninf => nan
  | v => v

/-- Float addition (used to sum a column of shares). -/
def add : PVal → PVal → PVal
  | nan, _ => nan
  | _, nan => nan
  | num a, num b => num (a + b)
  | num _, pinf => pinf
  | num _, ninf => ninf
  | pinf, num _ => pinf
  | ninf, num _ => ninf
  | pinf, pinf => pinf
  | ninf, ninf => ninf
  | pinf, ninf => nan
  | ninf, pinf => nan

/-- Sum of a list of float cells. -/
def sumList (l : List PVal) : PVal := l.foldr add (num 0)


end PVal

/-- Calendar date carried by a raw record.  The acquisition layer only hands
over parseable dates, so the date is already split into year, month and day. -/
structure Date where
  year : ℕ
  month : ℕ
  day : ℕ
deriving DecidableEq, Repr

/-- Encoding of a date that is monotone with calendar order for real dates
(month 1–12, day 1–31); used for `min`/`max` over the `date` column. -/
def Date.code (d : Date) : ℕ := d.year * 10000 + d.month * 100 + d.day

/-- Raw value found in the `registrations` column before cleaning: either a
value that `pd.to_numeric` can parse, or an unparseable token. -/
inductive RawVal where
  | numeric : ℚ → RawVal
  | unparseable : RawVal
deriving DecidableEq, Repr

/-- Model of `pd.to_numeric(col, errors='coerce')` on one cell: parseable
values go through, everything else becomes missing (NaN). -/
def to_numeric_coerce : RawVal → Option ℚ
  | .numeric q => some q
  | .unparseable => none

/-- One row of the raw input data frame handed to `VehicleDataProcessor`. -/
structure RawRecord where
  date : Date
  vehicle_category : String
  manufacturer : String
  registrations : RawVal
deriving DecidableEq, Repr

/-- Left-pad the decimal representation of `n` to two digits. -/
def pad2 (n : ℕ) : String := if n < 10 then "0" ++ toString n else toString n

/-- Left-pad the decimal representation of `n` to four digits
(`strftime('%Y')`-style year field). -/
def pad4 (n : ℕ) : String :=
  if n < 10 then "000" ++ toString n
  else if n < 100 then "00" ++ toString n
  else if n < 1000 then "0" ++ toString n
  else toString n

/-- One row of `processed_data` after `_prepare_data`: the raw row plus the
derived time columns, with `registrations` coerced to a number. -/
structure PreparedRec where
  date : Date
  vehicle_category : String
  manufacturer : String
  registrations : ℚ
  year : ℕ
  month : ℕ
  quarter : ℕ
  year_quarter : String
  year_month : String
deriving DecidableEq, Repr

/-- Preparation of a single row, following `_prepare_data` line by line:
`year`/`month` come from the date, `quarter` is the calendar quarter
(`dt.quarter`, i.e. `(month + 2) / 3` for months 1–12), `year_quarter` is
`"YYYY-Qn"`, `year_month` is `strftime('%Y-%m')`, and `registrations`
becomes `to_numeric(..., errors='coerce').fillna(0)`. -/
def prepareRecord (r : RawRecord) : PreparedRec :=
  { date := r.date
    vehicle_category := r.vehicle_category
    manufacturer := r.manufacturer
    registrations := (to_numeric_coerce r.registrations).getD 0
    year := r.date.year
    month := r.date.month
    quarter := (r.date.month + 2) / 3
    year_quarter := toString r.date.year ++ "-Q" ++ toString ((r.date.month + 2) / 3)
    year_month := pad4 r.date.year ++ "-" ++ pad2 r.date.month }

/-- Model of `VehicleDataProcessor._prepare_data`, which cleans every row of
the raw frame (the source stores the result in `self.processed_data`). -/
def VehicleDataProcessor.prepare_data (rs : List RawRecord) : List PreparedRec :=
  rs.map prepareRecord

section Grouping

variable {α : Type} {κ : Type} [DecidableEq κ]

/-- Distinct group keys of a list of rows, in order of first appearance
(pandas `groupby` group keys). -/
def groupKeys (key : α → κ) (rs : List α) : List κ := (rs.map key).dedup

/-- Sum of the measure over the rows of one group (exact key matches,
duplicates included). -/
def groupSum (key : α → κ) (meas : α → ℚ) (rs : List α) (k : κ) : ℚ :=
  ((rs.filter (fun r => key r = k)).map meas).sum

/-- Model of `df.groupby(key).agg({measure: 'sum'})`: one output pair per
distinct key, carrying the sum of the measure over its group. -/
def aggregateBy (key : α → κ) (meas : α → ℚ) (rs : List α) : List (κ × ℚ) :=
  (groupKeys key rs).map (fun k => (k, groupSum key meas rs k))

end Grouping

section GrowthPipeline

variable {K G : Type}

/-- One aggregated row of a growth computation: a period key, a group key
(the dimension tuple, e.g. category and manufacturer) and the summed
measure. -/
structure AggRow (K G : Type) where
  pkey : K
  gkey : G
  measure_sum : ℚ
deriving DecidableEq

/-- One output row of a growth computation: the aggregated row together with
the shifted previous measure and the derived growth columns. -/
structure GrowthRow (K G : Type) where
  pkey : K
  gkey : G
  measure_sum : ℚ
  prev : PVal
  growth_abs : PVal
  growth_pct : PVal
deriving DecidableEq

/-- Build one growth row from an aggregated row and the shifted previous
value (`none` = NaN, as produced by `groupby(...).shift(1)`), computing
`growth_abs = registrations - prev`, `growth_pct = growth_abs / prev * 100`
and then `replace([inf, -inf], nan)` exactly as the source does. -/
def mkGrowth (r : AggRow K G) (p : Option ℚ) : GrowthRow K G :=
  let prev : PVal := match p with
    | none => PVal.nan
    | some q => PVal.num q
  { pkey := r.pkey
    gkey := r.gkey
    measure_sum := r.measure_sum
    prev := prev
    growth_abs := PVal.sub (PVal.num r.measure_sum) prev
    growth_pct := PVal.replaceInfWithNan
      (PVal.mul100 (PVal.div (PVal.sub (PVal.num r.measure_sum) prev) prev)) }

variable [LinearOrder K] [LinearOrder G]

/-- Measure of the last row of `seen` belonging to group `g`, if any: the
value that `groupby(group).shift(1)` assigns to the next row of `g`. -/
def lastMeasure (seen : List (AggRow K G)) (g : G) : Option ℚ :=
  ((seen.filter (fun r => r.gkey = g)).getLast?).map (fun r => r.measure_sum)

/-- Row-by-row model of `groupby(group_cols)[value].shift(1)` followed by
the growth-column computations: each row receives the measure of the most
recent earlier row of its own group. -/
def shiftGo : List (AggRow K G) → List (AggRow K G) → List (GrowthRow K G)
  | _, [] => []
  | seen, r :: rest => mkGrowth r (lastMeasure seen r.gkey) :: shiftGo (seen ++ [r]) rest

/-- Per-group view of the shift: the first row gets `p`, every later row the
measure of its immediate predecessor in the list. -/
def chainFrom (p : Option ℚ) : List (AggRow K G) → List (GrowthRow K G)
  | [] => []
  | r :: rest => mkGrowth r p :: chainFrom (some r.measure_sum) rest

/-- Sorting relation used before the shift: lexicographic on the group key
then the period key, exactly `sort_values(group_cols + [period_col])`. -/
def rowLe (a b : AggRow K G) : Prop :=
  toLex (a.gkey, a.pkey) ≤ toLex (b.gkey, b.pkey)

instance : DecidableRel (rowLe (K := K) (G := G)) := fun a b =>
  inferInstanceAs (Decidable (toLex (a.gkey, a.pkey) ≤ toLex (b.gkey, b.pkey)))

instance : IsTotal (AggRow K G) rowLe :=
  ⟨fun a b => le_total (toLex (a.gkey, a.pkey)) (toLex (b.gkey, b.pkey))⟩

instance : IsTrans (AggRow K G) rowLe := ⟨fun _ _ _ hab hbc => le_trans hab hbc⟩

/-- Aggregation step shared by the growth computations: group the prepared
rows by (period key, group key) and sum `registrations`. -/
def aggRows (pk : PreparedRec → K) (gk : PreparedRec → G)
    (rs : List PreparedRec) : List (AggRow K G) :=
  (aggregateBy (fun r => (pk r, gk r)) (fun r => r.registrations) rs).map
    (fun kv => { pkey := kv.1.1, gkey := kv.1.2, measure_sum := kv.2 })

/-- The shared growth algorithm of `calculate_yoy_growth`,
`calculate_qoq_growth` and `calculate_mom_growth`: aggregate per period and
group, sort by (group, period), then shift by one period within each group
and derive the growth columns.  The three source functions differ only in
the keys (year / quarter / year-month). -/
def growthPipeline (pk : PreparedRec → K) (gk : PreparedRec → G)
    (rs : List PreparedRec) : List (GrowthRow K G) :=
  shiftGo [] (List.insertionSort rowLe (aggRows pk gk rs))

end GrowthPipeline

/-- Group key used by all three growth computations: the (category,
manufacturer) pair.  The strings are compared through their character
lists, which is exactly the lexicographic order pandas uses on the string
values. -/
def groupOf (r : PreparedRec) : Lex (List Char × List Char) :=
  toLex (r.vehicle_category.data, r.manufacturer.data)

/-- Model of `VehicleDataProcessor.calculate_yoy_growth`: aggregate
`registrations` by (year, category, manufacturer), sort by (category,
manufacturer, year) and shift by one year within each (category,
manufacturer) group. -/
def VehicleDataProcessor.calculate_yoy_growth (rs : List PreparedRec) :
    List (GrowthRow ℕ (Lex (List Char × List Char))) :=
  growthPipeline (fun r => r.year) groupOf rs

/-- Model of `GrowthCalculator.calculate_qoq_growth` (with the grouping
columns category and manufacturer): aggregate by (year, quarter, category,
manufacturer) and sort groups by `quarter_id = year * 10 + quarter`, which
for calendar quarters 1–4 is exactly the lexicographic order on the
(year, quarter) pair used here. -/
def GrowthCalculator.calculate_qoq_growth (rs : List PreparedRec) :
    List (GrowthRow (Lex (ℕ × ℕ)) (Lex (List Char × List Char))) :=
  growthPipeline (fun r => toLex (r.year, r.quarter)) groupOf rs

/-- Model of `GrowthCalculator.calculate_mom_growth`: aggregate by the
zero-padded `year_month` label and sort by it (the source sorts the
`"YYYY-MM"` strings; their character-list order is used here). -/
def GrowthCalculator.calculate_mom_growth (rs : List PreparedRec) :
    List (GrowthRow (List Char) (Lex (List Char × List Char))) :=
  growthPipeline (fun r => r.year_month.data) groupOf rs

/-- One output row of a market-share computation: the aggregated
(period, category, manufacturer) row, the total of its (period, category)
market, and the derived share column. -/
structure MarketShareRow where
  period_key : String
  vehicle_category : String
  manufacturer : String
  registrations : ℚ
  category_total : ℚ
  market_share_pct : PVal
deriving DecidableEq

/-- Lookup of the `category_total` column produced by the pandas merge of
the per-(period, category) totals onto the per-entity rows. -/
def lookupTotal (tots : List ((String × String) × ℚ)) (k : String × String) : ℚ :=
  ((tots.find? (fun kv => kv.1 = k)).map (fun kv => kv.2)).getD 0

/-- Shared body of `VehicleDataProcessor.get_market_share` and
`GrowthCalculator.calculate_market_share`: aggregate by (period, category,
entity), total the aggregated sums by (period, category), merge the totals
back, and compute `market_share_pct = registrations / category_total * 100`
(the source applies no infinity/NaN replacement here).  `mkShareRow` builds
one merged output row. -/
def mkShareRow (tots : List ((String × String) × ℚ))
    (md : (String × String × String) × ℚ) : MarketShareRow :=
  { period_key := md.1.1
    vehicle_category := md.1.2.1
    manufacturer := md.1.2.2
    registrations := md.2
    category_total := lookupTotal tots (md.1.1, md.1.2.1)
    market_share_pct := PVal.mul100 (PVal.div (PVal.num md.2)
      (PVal.num (lookupTotal tots (md.1.1, md.1.2.1)))) }

def marketShareFor (pk : PreparedRec → String) (rs : List PreparedRec) :
    List MarketShareRow :=
  let market_data :=
    aggregateBy (fun r => (pk r, r.vehicle_category, r.manufacturer))
      (fun r => r.registrations) rs
  let category_totals :=
    aggregateBy (fun md => (md.1.1, md.1.2.1)) (fun md => md.2) market_data
  market_data.map (mkShareRow category_totals)

/-- Model of `VehicleDataProcessor.get_market_share`.  The `year` period
column is embedded as its decimal string so all three branches share one
key type; this renaming is injective and does not change the grouping. -/
def VehicleDataProcessor.get_market_share (period : String) (rs : List PreparedRec) :
    Except String (List MarketShareRow) :=
  if period = "year" then Except.ok (marketShareFor (fun r => toString r.year) rs)
  else if period = "quarter" then Except.ok (marketShareFor (fun r => r.year_quarter) rs)
  else if period = "month" then Except.ok (marketShareFor (fun r => r.year_month) rs)
  else Except.error "Period must be month, quarter, or year"

/-- Model of `GrowthCalculator.calculate_market_share` with its default
column choices (`period_col = year`, categories and manufacturers). -/
def GrowthCalculator.calculate_market_share (rs : List PreparedRec) :
    List MarketShareRow :=
  marketShareFor (fun r => toString r.year) rs

/-- One output row of `aggregate_by_period`: the grouped sums plus the
`'date': 'first'` column kept by the source. -/
structure AggPeriodRow where
  period_key : String
  vehicle_category : String
  manufacturer : String
  registrations : ℚ
  first_date : Option Date
deriving DecidableEq

/-- Grouped sums of `aggregate_by_period` for one period-key column. -/
def aggregate_by_period_core (pk : PreparedRec → String) (rs : List PreparedRec) :
    List AggPeriodRow :=
  (groupKeys (fun r => (pk r, r.vehicle_category, r.manufacturer)) rs).map (fun k =>
    { period_key := k.1
      vehicle_category := k.2.1
      manufacturer := k.2.2
      registrations := groupSum (fun r => (pk r, r.vehicle_category, r.manufacturer))
        (fun r => r.registrations) rs k
      first_date :=
        ((rs.filter (fun r => (pk r, r.vehicle_category, r.manufacturer) = k)).head?).map
          (fun r => r.date) })

/-- Model of `VehicleDataProcessor.aggregate_by_period`: dispatch on the
`period` argument ('month' / 'quarter' / 'year', anything else raises
`ValueError`), group by (period key, category, manufacturer) and sum
registrations.  As in `get_market_share`, the year is embedded as its
decimal string. -/
def VehicleDataProcessor.aggregate_by_period (period : String) (rs : List PreparedRec) :
    Except String (List AggPeriodRow) :=
  if period = "month" then Except.ok (aggregate_by_period_core (fun r => r.year_month) rs)
  else if period = "quarter" then
    Except.ok (aggregate_by_period_core (fun r => r.year_quarter) rs)
  else if period = "year" then
    Except.ok (aggregate_by_period_core (fun r => toString r.year) rs)
  else Except.error "Period must be month, quarter, or year"

/-- Earliest date of the `date` column (`df['date'].min()`), `none` (pandas
`NaT`) on an empty frame. -/
def minDateOpt (l : List Date) : Option Date :=
  l.foldl (fun acc d =>
    match acc with
    | none => some d
    | some m => some (if d.code < m.code then d else m)) none

/-- Latest date of the `date` column (`df['date'].max()`), `none` on an
empty frame. -/
def maxDateOpt (l : List Date) : Option Date :=
  l.foldl (fun acc d =>
    match acc with
    | none => some d
    | some m => some (if m.code < d.code then d else m)) none

/-- Format a date as `strftime('%Y-%m-%d')` does. -/
def strftime_ymd (d : Date) : String :=
  pad4 d.year ++ "-" ++ pad2 d.month ++ "-" ++ pad2 d.day

/-- `strftime` applied to the result of `min()`/`max()` on the date column:
on an empty frame the value is `NaT` and the call raises
(`NaTType does not support strftime`). -/
def strftimeOpt : Option Date → Except String String
  | none => Except.error "NaTType does not support strftime"
  | some d => Except.ok (strftime_ymd d)

/-- The summary dictionary built by `get_summary_stats`. -/
structure SummaryStats where
  total_records : ℕ
  date_range_start : String
  date_range_end : String
  total_registrations : ℚ
  vehicle_categories : List String
  manufacturers : List String
  years_covered : List ℕ
  avg_monthly_registrations : PVal
deriving DecidableEq

/-- Model of `VehicleDataProcessor.get_summary_stats`, field by field:
record count, formatted min/max date (which raises on an empty frame),
total registrations, distinct categories and manufacturers in first-seen
order (`unique().tolist()`), sorted distinct years, and the mean of the
monthly sums (NaN when there are no months). -/
def VehicleDataProcessor.get_summary_stats (rs : List PreparedRec) :
    Except String SummaryStats :=
  match strftimeOpt (minDateOpt (rs.map (fun r => r.date))),
      strftimeOpt (maxDateOpt (rs.map (fun r => r.date))) with
  | Except.error msg, _ => Except.error msg
  | _, Except.error msg => Except.error msg
  | Except.ok startStr, Except.ok endStr =>
      Except.ok
        { total_records := rs.length
          date_range_start := startStr
          date_range_end := endStr
          total_registrations := (rs.map (fun r => r.registrations)).sum
          vehicle_categories := (rs.map (fun r => r.vehicle_category)).dedup
          manufacturers := (rs.map (fun r => r.manufacturer)).dedup
          years_covered :=
            List.insertionSort (fun a b => a ≤ b) ((rs.map (fun r => r.year)).dedup)
          avg_monthly_registrations :=
            let monthly :=
              (aggregateBy (fun r => r.year_month) (fun r => r.registrations) rs).map
                (fun kv => kv.2)
            if monthly.length = 0 then PVal.nan
            else PVal.num (monthly.sum / (monthly.length : ℚ)) }

/-- Model of `GrowthCalculator.calculate_moving_average`, i.e. pandas
`series.rolling(window, center=True).mean()`: one output position per
input position.  Pandas centers with `offset = (window - 1) / 2` elements
after the position, so position `i` covers the `window` values starting at
`i - window / 2` (for an even window the extra element lies before the
center); the position carries the mean of that window when it lies fully
inside the series, and NaN (`none`) otherwise. -/
def GrowthCalculator.calculate_moving_average (data : List ℚ) (window : ℕ) :
    List (Option ℚ) :=
  (List.range data.length).map (fun i =>
    if window / 2 ≤ i ∧ i + (window - 1) / 2 < data.length then
      some (((data.drop (i - window / 2)).take window).sum / (window : ℚ))
    else none)

/-- Result of `detect_trend`. -/
inductive Trend where
  | increasing : Trend
  | decreasing : Trend
  | stable : Trend
  | insufficient_data : Trend
deriving DecidableEq, Repr

/-- Ordinary-least-squares slope of `ys` against `x = 0..n-1`
(`np.polyfit(x, y, 1)[0]`). -/
def olsSlope (ys : List ℚ) : ℚ :=
  let n : ℚ := (ys.length : ℚ)
  let xs : List ℚ := (List.range ys.length).map (fun i => (i : ℚ))
  let sx := xs.sum
  let sy := ys.sum
  let sxy := ((xs.zip ys).map (fun p => p.1 * p.2)).sum
  let sxx := (xs.map (fun x => x * x)).sum
  (n * sxy - sx * sy) / (n * sxx - sx * sx)

/-- Model of `GrowthCalculator.detect_trend`: insufficient data when the
series (or the series with NaNs dropped) is shorter than `min_periods`;
if both length checks pass but the cleaned series is empty (reachable only
with `min_periods = 0`), `np.polyfit` is called on an empty vector and
raises `TypeError: expected non-empty vector for x`; otherwise classify by
comparing the regression slope against the threshold `abs(mean * 0.05)`. -/
def GrowthCalculator.detect_trend (data : List (Option ℚ)) (min_periods : ℕ) :
    Except String Trend :=
  if data.length < min_periods then Except.ok Trend.insufficient_data
  else
    let clean := data.filterMap id
    if clean.length < min_periods then Except.ok Trend.insufficient_data
    else if clean.length = 0 then Except.error "expected non-empty vector for x"
    else
      let slope := olsSlope clean
      let mean_value := clean.sum / (clean.length : ℚ)
      let threshold := |mean_value * (5 / 100)|
      if threshold < slope then Except.ok Trend.increasing
      else if slope < -threshold then Except.ok Trend.decreasing
      else Except.ok Trend.stable

/-- Trend classifier written from the specification text for comparison
with `detect_trend` (refinement check): `insufficient_data` when fewer than
`min_periods` non-missing values exist, otherwise `increasing` if the slope
exceeds 5% of the mean value, `decreasing` if it is below −5% of the mean
value, else `stable` — with the signed threshold the sentence describes. -/
def spec_classifyTrend (data : List (Option ℚ)) (min_periods : ℕ) : Trend :=
  let clean := data.filterMap id
  if clean.length < min_periods then Trend.insufficient_data
  else
    let slope := olsSlope clean
    let mean_value := clean.sum / (clean.length : ℚ)
    if mean_value * (5 / 100) < slope then Trend.increasing
    else if slope < -(mean_value * (5 / 100)) then Trend.decreasing
    else Trend.stable

/-- Trend classifier written from the specification text but with the
threshold taken as 5% of the absolute mean value; this is the amended
reading that matches the code. -/
def spec_classifyTrend_absThreshold (data : List (Option ℚ)) (min_periods : ℕ) : Trend :=
  let clean := data.filterMap id
  if clean.length < min_periods then Trend.insufficient_data
  else
    let slope := olsSlope clean
    let mean_value := clean.sum / (clean.length : ℚ)
    if |mean_value * (5 / 100)| < slope then Trend.increasing
    else if slope < -|mean_value * (5 / 100)| then Trend.decreasing
    else Trend.stable

/-- The mutable state of a `VehicleDataProcessor` instance: the copied raw
frame and the prepared frame written once by `_prepare_data`. -/
structure VehicleDataProcessorState where
  raw_data : List RawRecord
  processed_data : List PreparedRec
deriving DecidableEq

/-- Model of `VehicleDataProcessor.__init__`: copy the input data and run
`_prepare_data` once. -/
def VehicleDataProcessor.init (data : List RawRecord) : VehicleDataProcessorState :=
  { raw_data := data
    processed_data := VehicleDataProcessor.prepare_data data }

/-- The `calculate_yoy_growth` method as a state transformer: the body only
reads `self.processed_data` and builds new frames (`groupby`, `sort_values`
and the derived columns all allocate fresh objects), so the returned state
is the input state unchanged. -/
def VehicleDataProcessor.calculate_yoy_growth_run (s : VehicleDataProcessorState) :
    List (GrowthRow ℕ (Lex (List Char × List Char))) × VehicleDataProcessorState :=
  (VehicleDataProcessor.calculate_yoy_growth s.processed_data, s)

/-- The rows of one dimension group `g` in a growth computation, in output
order: the per-group view in which the claims about ordering and shifting
are stated. -/
def groupRows {K G : Type} [LinearOrder K] [LinearOrder G]
    (pk : PreparedRec → K) (gk : PreparedRec → G) (rs : List PreparedRec) (g : G) :
    List (GrowthRow K G) :=
  (growthPipeline pk gk rs).filter (fun row => row.gkey = g)

/-- Projection of an aggregated row onto its full grouping key. -/
def rowKey {K G : Type} (r : AggRow K G) : K × G := (r.pkey, r.gkey)

/-- Concrete input for the yearly-growth scenario: entity A, category 4W,
measure 100 in 2021 and 150 in 2022. -/
def exRecsC4 : List RawRecord :=
  [{ date := { year := 2021, month := 1, day := 15 }, vehicle_category := "4W",
     manufacturer := "A", registrations := RawVal.numeric 100 },
   { date := { year := 2022, month := 1, day := 15 }, vehicle_category := "4W",
     manufacturer := "A", registrations := RawVal.numeric 150 }]

/-- Concrete input for the zero-predecessor scenario: measure 0 in 2021 and
500 in 2022. -/
def exRecsZero : List RawRecord :=
  [{ date := { year := 2021, month := 1, day := 15 }, vehicle_category := "4W",
     manufacturer := "A", registrations := RawVal.numeric 0 },
   { date := { year := 2022, month := 1, day := 15 }, vehicle_category := "4W",
     manufacturer := "A", registrations := RawVal.numeric 500 }]

/-- Concrete input with a single all-zero group: category total is 0. -/
def exRecsZeroTotal : List RawRecord :=
  [{ date := { year := 2021, month := 1, day := 15 }, vehicle_category := "4W",
     manufacturer := "A", registrations := RawVal.numeric 0 }]

/-- A record whose registrations cell is unparseable. -/
def badRec : RawRecord :=
  { date := { year := 2023, month := 6, day := 1 }, vehicle_category := "2W",
    manufacturer := "B", registrations := RawVal.unparseable }

/-- Concrete input with one unparseable registrations cell. -/
def exRecsBadCell : List RawRecord := [badRec]

/-- Concrete input for the share-sums-to-100 scenario: two manufacturers in
one category and year, measures 60 and 40. -/
def exRecsTwoMan : List RawRecord :=
  [{ date := { year := 2021, month := 3, day := 10 }, vehicle_category := "4W",
     manufacturer := "A", registrations := RawVal.numeric 60 },
   { date := { year := 2021, month := 5, day := 20 }, vehicle_category := "4W",
     manufacturer := "B", registrations := RawVal.numeric 40 }]

/-- Concrete input with two duplicate rows for the same grouping (same date,
category and manufacturer), measures 3 and 4. -/
def exRecsDup : List RawRecord :=
  [{ date := { year := 2021, month := 1, day := 15 }, vehicle_category := "4W",
     manufacturer := "A", registrations := RawVal.numeric 3 },
   { date := { year := 2021, month := 1, day := 15 }, vehicle_category := "4W",
     manufacturer := "A", registrations := RawVal.numeric 4 }]

/-- First output row of the yearly growth on `exRecsC4` (year 2021: no
predecessor). -/
def yoyExRow0 : GrowthRow ℕ (Lex (List Char × List Char)) :=
  { pkey := 2021, gkey := toLex ("4W".data, "A".data), measure_sum := 100,
    prev := PVal.nan, growth_abs := PVal.nan, growth_pct := PVal.nan }

/-- Second output row of the yearly growth on `exRecsC4` (year 2022:
predecessor 100, growth 50 and 50%). -/
def yoyExRow1 : GrowthRow ℕ (Lex (List Char × List Char)) :=
  { pkey := 2022, gkey := toLex ("4W".data, "A".data), measure_sum := 150,
    prev := PVal.num 100, growth_abs := PVal.num 50, growth_pct := PVal.num 50 }

/-- Second output row of the yearly growth on `exRecsZero` (year 2022:
predecessor 0, growth_abs 500, growth_pct NaN). -/
def yoyZeroRow1 : GrowthRow ℕ (Lex (List Char × List Char)) :=
  { pkey := 2022, gkey := toLex ("4W".data, "A".data), measure_sum := 500,
    prev := PVal.num 0, growth_abs := PVal.num 500, growth_pct := PVal.nan }

/-- The single market-share row produced from `exRecsZeroTotal`: its
category total is 0 and its share is NaN (0/0), yet it is present in the
output. -/
def msZeroRow : MarketShareRow :=
  { period_key := "2021", vehicle_category := "4W", manufacturer := "A",
    registrations := 0, category_total := 0, market_share_pct := PVal.nan }

/-- Market-share row of manufacturer A on `exRecsTwoMan`: 60 of 100. -/
def msRowA : MarketShareRow :=
  { period_key := "2021", vehicle_category := "4W", manufacturer := "A",
    registrations := 60, category_total := 100, market_share_pct := PVal.num 60 }

/-- Market-share row of manufacturer B on `exRecsTwoMan`: 40 of 100. -/
def msRowB : MarketShareRow :=
  { period_key := "2021", vehicle_category := "4W", manufacturer := "B",
    registrations := 40, category_total := 100, market_share_pct := PVal.num 40 }

namespace PVal

theorem replaceInfWithNan_ne_pinf (v : PVal) : replaceInfWithNan v ≠ pinf := by
  cases v <;> simp [replaceInfWithNan]

theorem replaceInfWithNan_ne_ninf (v : PVal) : replaceInfWithNan v ≠ ninf := by
  cases v <;> simp [replaceInfWithNan]

theorem sumList_map_num (l : List ℚ) : sumList (l.map num) = num l.sum := by
  induction l with
  | nil => rfl
  | cons a l ih => simp [sumList, List.foldr_cons, add] at ih ⊢; simp [ih, add]

end PVal

section GroupingLemmas

variable {α : Type} {κ : Type} [DecidableEq κ]

theorem sum_map_filter_add_not (meas : α → ℚ) (p : α → Bool) (rs : List α) :
    ((rs.filter p).map meas).sum + ((rs.filter (fun r => ! p r)).map meas).sum
      = (rs.map meas).sum := by
  induction rs with
  | nil => simp
  | cons r rs ih =>
      by_cases h : p r = true
      · simp only [List.filter_cons, h, Bool.not_true, if_pos, if_neg, Bool.false_eq_true,
          not_false_eq_true, List.map_cons, List.sum_cons, ite_true, ite_false]
        linarith [ih]
      · simp only [List.filter_cons, h, Bool.not_eq_true] at *
        simp only [Bool.not_false, h, if_neg, if_pos, Bool.false_eq_true, List.map_cons,
          List.sum_cons, ite_true, ite_false]
        linarith [ih]

theorem groupSum_filter_ne (key : α → κ) (meas : α → ℚ) (rs : List α)
    (k j : κ) (hjk : j ≠ k) :
    groupSum key meas (rs.filter (fun r => ! (key r = k))) j
      = groupSum key meas rs j := by
  unfold groupSum
  rw [List.filter_filter]
  congr 2
  apply List.filter_congr
  intro r _
  by_cases h : key r = j
  · have hk : ¬ key r = k := fun hkk => hjk (h.symm.trans hkk)
    simp [h, hk, hjk]
  · simp [h]

/-- Fibre decomposition: summing the per-group sums over any duplicate-free
list of keys that covers all rows recovers the total sum. -/
theorem sum_groupSum_of_cover (key : α → κ) (meas : α → ℚ)
    (ks : List κ) (hnd : ks.Nodup) :
    ∀ rs : List α, (∀ r ∈ rs, key r ∈ ks) →
      (ks.map (groupSum key meas rs)).sum = (rs.map meas).sum := by
  induction ks with
  | nil =>
      intro rs hcov
      have : rs = [] := List.eq_nil_iff_forall_not_mem.mpr fun r hr => by
        simpa using hcov r hr
      simp [this]
  | cons k ks ih =>
      intro rs hcov
      have hndtail : ks.Nodup := hnd.of_cons
      have hknot : k ∉ ks := by
        intro hk; exact (List.nodup_cons.mp hnd).1 hk
      have hcov2 : ∀ r ∈ rs.filter (fun r => ! (key r = k)), key r ∈ ks := by
        intro r hr
        rcases List.mem_filter.mp hr with ⟨hmem, hne⟩
        rcases List.mem_cons.mp (hcov r hmem) with h | h
        · exact absurd h (by simpa using hne)
        · exact h
      have hsum2 := ih hndtail (rs.filter (fun r => ! (key r = k))) hcov2
      have hmaps : ks.map (groupSum key meas rs)
          = ks.map (groupSum key meas (rs.filter (fun r => ! (key r = k)))) := by
        apply List.map_congr_left
        intro j hj
        have hjk : j ≠ k := fun h => hknot (h ▸ hj)
        exact (groupSum_filter_ne key meas rs k j hjk).symm
      have hsplit := sum_map_filter_add_not meas (fun r => key r = k) rs
      calc ((k :: ks).map (groupSum key meas rs)).sum
          = groupSum key meas rs k + (ks.map (groupSum key meas rs)).sum := by
            simp
        _ = groupSum key meas rs k
              + ((rs.filter (fun r => ! (key r = k))).map meas).sum := by
            rw [hmaps, hsum2]
        _ = (rs.map meas).sum := by
            unfold groupSum at *
            simpa using hsplit

/-- Conservation law for `aggregateBy`: the output group sums add up to the
total of the measure over all input rows. -/
theorem aggregateBy_sum (key : α → κ) (meas : α → ℚ) (rs : List α) :
    ((aggregateBy key meas rs).map (fun kv => kv.2)).sum = (rs.map meas).sum := by
  unfold aggregateBy
  rw [List.map_map]
  have : ((fun kv : κ × ℚ => kv.2) ∘ fun k => (k, groupSum key meas rs k))
      = groupSum key meas rs := rfl
  rw [this]
  exact sum_groupSum_of_cover key meas (groupKeys key rs) (List.nodup_dedup _) rs
    (fun r hr => by simpa [groupKeys] using List.mem_dedup.mpr (List.mem_map_of_mem key hr))

/-- Every output pair of `aggregateBy` is a key together with its group sum. -/
theorem aggregateBy_mem (key : α → κ) (meas : α → ℚ) (rs : List α)
    (kv : κ × ℚ) (h : kv ∈ aggregateBy key meas rs) :
    kv.2 = groupSum key meas rs kv.1 := by
  unfold aggregateBy at h
  rcases List.mem_map.mp h with ⟨k, _, hk⟩
  cases hk
  rfl

theorem find?_map_key (f : κ → ℚ) :
    ∀ l : List κ, l.Nodup → ∀ k ∈ l,
      ((l.map (fun x => (x, f x))).find? (fun kv => kv.1 = k)) = some (k, f k) := by
  intro l
  induction l with
  | nil => intro _ k hk; cases hk
  | cons a l ih =>
      intro hnd k hk
      by_cases hak : a = k
      · subst hak
        simp [List.find?_cons_of_pos]
      · have hkl : k ∈ l := by
          rcases List.mem_cons.mp hk with h | h
          · exact absurd h.symm hak
          · exact h
        rw [List.map_cons, List.find?_cons_of_neg]
        · exact ih hnd.of_cons k hkl
        · simp [hak]

/-- Looking up a key that occurs in the data recovers its group sum. -/
theorem aggregateBy_find? (key : α → κ) (meas : α → ℚ) (rs : List α)
    (k : κ) (hk : k ∈ rs.map key) :
    (aggregateBy key meas rs).find? (fun kv => kv.1 = k)
      = some (k, groupSum key meas rs k) := by
  unfold aggregateBy groupKeys
  exact find?_map_key (groupSum key meas rs) _ (List.nodup_dedup _) k
    (List.mem_dedup.mpr hk)


end GroupingLemmas

section PipelineLemmas

variable {K G : Type}

@[simp] theorem mkGrowth_pkey (r : AggRow K G) (p : Option ℚ) :
    (mkGrowth r p).pkey = r.pkey := rfl

@[simp] theorem mkGrowth_gkey (r : AggRow K G) (p : Option ℚ) :
    (mkGrowth r p).gkey = r.gkey := rfl

@[simp] theorem mkGrowth_measure_sum (r : AggRow K G) (p : Option ℚ) :
    (mkGrowth r p).measure_sum = r.measure_sum := rfl

variable [LinearOrder K] [LinearOrder G]

omit [LinearOrder K] in
theorem lastMeasure_append_same (seen : List (AggRow K G)) (r : AggRow K G)
    (g : G) (h : r.gkey = g) :
    lastMeasure (seen ++ [r]) g = some r.measure_sum := by
  unfold lastMeasure
  rw [List.filter_append]
  simp [List.filter_cons, h]

omit [LinearOrder K] in
theorem lastMeasure_append_other (seen : List (AggRow K G)) (r : AggRow K G)
    (g : G) (h : ¬ r.gkey = g) :
    lastMeasure (seen ++ [r]) g = lastMeasure seen g := by
  unfold lastMeasure
  rw [List.filter_append]
  simp [List.filter_cons, h]

omit [LinearOrder K] in
/-- The rows of group `g` in the output of the shift are exactly the chain
of the group's own rows, threaded with the predecessor measure. -/
theorem shiftGo_filter (g : G) :
    ∀ (l seen : List (AggRow K G)),
      (shiftGo seen l).filter (fun row => row.gkey = g)
        = chainFrom (lastMeasure seen g) (l.filter (fun r => r.gkey = g)) := by
  intro l
  induction l with
  | nil => intro seen; simp [shiftGo, chainFrom]
  | cons r rest ih =>
      intro seen
      rw [shiftGo]
      by_cases h : r.gkey = g
      · have hstep := ih (seen ++ [r])
        simp [List.filter_cons, h, hstep, lastMeasure_append_same seen r g h, chainFrom]
      · have hstep := ih (seen ++ [r])
        simp [List.filter_cons, h, hstep, lastMeasure_append_other seen r g h]

omit [LinearOrder K] [LinearOrder G] in
theorem chainFrom_getElem?_zero (p : Option ℚ) (l : List (AggRow K G)) :
    (chainFrom p l)[0]? = l[0]?.map (fun r => mkGrowth r p) := by
  cases l <;> simp [chainFrom]

omit [LinearOrder K] [LinearOrder G] in
theorem chainFrom_getElem?_succ (l : List (AggRow K G)) :
    ∀ (p : Option ℚ) (i : ℕ) (a : AggRow K G), l[i]? = some a →
      (chainFrom p l)[i + 1]? = l[i + 1]?.map (fun b => mkGrowth b (some a.measure_sum)) := by
  induction l with
  | nil => intro p i a h; simp at h
  | cons r rest ih =>
      intro p i a h
      cases i with
      | zero =>
          simp only [List.getElem?_cons_zero, Option.some.injEq] at h
          subst h
          simp only [chainFrom, List.getElem?_cons_succ, List.getElem?_cons_zero]
          exact chainFrom_getElem?_zero _ rest
      | succ i =>
          simp only [List.getElem?_cons_succ] at h
          simp only [chainFrom, List.getElem?_cons_succ]
          exact ih (some r.measure_sum) i a h

omit [LinearOrder K] [LinearOrder G] in
theorem chainFrom_map_pkey (l : List (AggRow K G)) :
    ∀ p : Option ℚ, (chainFrom p l).map (fun row => row.pkey) = l.map (fun r => r.pkey) := by
  induction l with
  | nil => intro p; rfl
  | cons r rest ih => intro p; simp [chainFrom, ih]

omit [LinearOrder K] in
theorem shiftGo_mem (l : List (AggRow K G)) :
    ∀ (seen : List (AggRow K G)) (row : GrowthRow K G), row ∈ shiftGo seen l →
      ∃ (r : AggRow K G) (p : Option ℚ), row = mkGrowth r p := by
  induction l with
  | nil => intro seen row h; simp [shiftGo] at h
  | cons r rest ih =>
      intro seen row h
      rw [shiftGo] at h
      rcases List.mem_cons.mp h with h1 | h1
      · exact ⟨r, lastMeasure seen r.gkey, h1⟩
      · exact ih (seen ++ [r]) row h1


end PipelineLemmas

section PipelineOrderLemmas

variable {K G : Type} [LinearOrder K] [LinearOrder G]

omit [LinearOrder K] [LinearOrder G] in
theorem chainFrom_getElem?_shape (l : List (AggRow K G)) :
    ∀ (p : Option ℚ) (i : ℕ) (row : GrowthRow K G), (chainFrom p l)[i]? = some row →
      ∃ r : AggRow K G, l[i]? = some r ∧ row.measure_sum = r.measure_sum := by
  induction l with
  | nil => intro p i row h; simp [chainFrom] at h
  | cons a rest ih =>
      intro p i row h
      cases i with
      | zero =>
          simp only [chainFrom, List.getElem?_cons_zero, Option.some.injEq] at h
          exact ⟨a, by simp, by rw [← h]; simp⟩
      | succ i =>
          simp only [chainFrom, List.getElem?_cons_succ] at h
          obtain ⟨r, hr, hm⟩ := ih (some a.measure_sum) i row h
          exact ⟨r, by simp only [List.getElem?_cons_succ]; exact hr, hm⟩

theorem groupRows_eq_chainFrom (pk : PreparedRec → K) (gk : PreparedRec → G)
    (rs : List PreparedRec) (g : G) :
    groupRows pk gk rs g = chainFrom none
      ((List.insertionSort rowLe (aggRows pk gk rs)).filter (fun r => r.gkey = g)) := by
  unfold groupRows growthPipeline
  rw [shiftGo_filter]
  rfl

theorem aggRows_map_rowKey (pk : PreparedRec → K) (gk : PreparedRec → G)
    (rs : List PreparedRec) :
    (aggRows pk gk rs).map rowKey = groupKeys (fun r => (pk r, gk r)) rs := by
  unfold aggRows aggregateBy
  rw [List.map_map]
  have h1 : ((fun r : AggRow K G => rowKey r) ∘ fun kv : (K × G) × ℚ =>
      ({ pkey := kv.1.1, gkey := kv.1.2, measure_sum := kv.2 } : AggRow K G))
      = fun kv : (K × G) × ℚ => kv.1 := rfl
  rw [h1, List.map_map]
  have h2 : ((fun kv : (K × G) × ℚ => kv.1) ∘ fun k : K × G =>
      (k, groupSum (fun r => (pk r, gk r)) (fun r => r.registrations) rs k)) = id := rfl
  rw [h2, List.map_id]

theorem sortedAgg_key_nodup (pk : PreparedRec → K) (gk : PreparedRec → G)
    (rs : List PreparedRec) :
    ((List.insertionSort rowLe (aggRows pk gk rs)).map rowKey).Nodup := by
  have hperm : List.Perm ((List.insertionSort rowLe (aggRows pk gk rs)).map rowKey)
      ((aggRows pk gk rs).map rowKey) :=
    (List.perm_insertionSort rowLe (aggRows pk gk rs)).map rowKey
  have hnd : ((aggRows pk gk rs).map rowKey).Nodup := by
    rw [aggRows_map_rowKey]
    exact List.nodup_dedup _
  exact hperm.symm.nodup hnd

theorem groupRows_pairwise (pk : PreparedRec → K) (gk : PreparedRec → G)
    (rs : List PreparedRec) (g : G) :
    List.Pairwise (fun a b : GrowthRow K G => a.pkey < b.pkey) (groupRows pk gk rs g) := by
  have hsorted : List.Pairwise rowLe (List.insertionSort rowLe (aggRows pk gk rs)) :=
    List.sorted_insertionSort rowLe (aggRows pk gk rs)
  have hne : List.Pairwise (fun a b : AggRow K G => rowKey a ≠ rowKey b)
      (List.insertionSort rowLe (aggRows pk gk rs)) :=
    List.pairwise_map.mp (sortedAgg_key_nodup pk gk rs)
  have hcomb : List.Pairwise
      (fun a b : AggRow K G => a.gkey = g → b.gkey = g → a.pkey < b.pkey)
      (List.insertionSort rowLe (aggRows pk gk rs)) := by
    refine List.Pairwise.imp₂ ?_ hsorted hne
    intro a b hle hneq ha hb
    have hle2 : a.pkey ≤ b.pkey := by
      rcases (Prod.Lex.le_iff (a.gkey, a.pkey) (b.gkey, b.pkey)).mp hle with h | h
      · rw [ha, hb] at h
        exact absurd h (lt_irrefl g)
      · exact h.2
    have hne2 : a.pkey ≠ b.pkey := by
      intro hp
      apply hneq
      unfold rowKey
      rw [hp, ha, hb]
    exact lt_of_le_of_ne hle2 hne2
  have hfil : List.Pairwise (fun a b : AggRow K G => a.pkey < b.pkey)
      ((List.insertionSort rowLe (aggRows pk gk rs)).filter (fun r => r.gkey = g)) := by
    rw [List.pairwise_filter]
    exact hcomb
  have hmapeq : (groupRows pk gk rs g).map (fun row => row.pkey)
      = ((List.insertionSort rowLe (aggRows pk gk rs)).filter
          (fun r => r.gkey = g)).map (fun r => r.pkey) := by
    rw [groupRows_eq_chainFrom]
    exact chainFrom_map_pkey _ none
  have h1 : List.Pairwise (fun a b : K => a < b)
      ((groupRows pk gk rs g).map (fun row => row.pkey)) := by
    rw [hmapeq]
    exact List.pairwise_map.mpr hfil
  exact List.pairwise_map.mp h1

theorem growthPipeline_rows (pk : PreparedRec → K) (gk : PreparedRec → G)
    (rs : List PreparedRec) :
    ∀ row ∈ growthPipeline pk gk rs,
      (row.growth_pct ≠ PVal.pinf ∧ row.growth_pct ≠ PVal.ninf) ∧
      (row.prev = PVal.num 0 →
        row.growth_abs = PVal.num row.measure_sum ∧ row.growth_pct = PVal.nan) := by
  intro row hrow
  obtain ⟨r, p, hr⟩ := shiftGo_mem _ _ row hrow
  subst hr
  refine ⟨⟨PVal.replaceInfWithNan_ne_pinf _, PVal.replaceInfWithNan_ne_ninf _⟩, ?_⟩
  intro hprev
  cases p with
  | none => simp [mkGrowth] at hprev
  | some q =>
      have hq : q = 0 := by simpa [mkGrowth] using hprev
      subst hq
      constructor
      · show PVal.sub (PVal.num r.measure_sum) (PVal.num 0) = PVal.num r.measure_sum
        simp [PVal.sub]
      · show PVal.replaceInfWithNan (PVal.mul100 (PVal.div
            (PVal.sub (PVal.num r.measure_sum) (PVal.num 0)) (PVal.num 0))) = PVal.nan
        rcases lt_trichotomy r.measure_sum 0 with h | h | h
        · simp [PVal.sub, PVal.div, PVal.mul100, PVal.replaceInfWithNan, h.ne, not_lt.mpr h.le]
        · simp [PVal.sub, PVal.div, PVal.mul100, PVal.replaceInfWithNan, h]
        · simp [PVal.sub, PVal.div, PVal.mul100, PVal.replaceInfWithNan, h.ne.symm, h]

end PipelineOrderLemmas

/-- C4: for every input and every distinct dimension-tuple group, the growth
calculation orders that group's rows chronologically (strictly increasing
period keys), leaves `previous_measure`, `growth_abs` and `growth_pct`
undefined (NaN) for the chronologically first row of the group — in
particular a single-period group gets both growth fields undefined — and for
every later row sets `previous_measure` to the immediately preceding row's
`measure_sum`, `growth_abs = measure_sum - previous_measure`, and (whenever
the predecessor is non-zero, the case in which the quotient is defined)
`growth_pct = growth_abs / previous_measure * 100`.  Stated for the shared
pipeline of all three growth computations, over every choice of period and
group key. -/
theorem claim_C4_group_shift_structure {K G : Type} [LinearOrder K] [LinearOrder G]
    (pk : PreparedRec → K) (gk : PreparedRec → G) (rs : List PreparedRec) (g : G) :
    List.Pairwise (fun a b : GrowthRow K G => a.pkey < b.pkey) (groupRows pk gk rs g) ∧
    (∀ a : GrowthRow K G, (groupRows pk gk rs g)[0]? = some a →
      a.prev = PVal.nan ∧ a.growth_abs = PVal.nan ∧ a.growth_pct = PVal.nan) ∧
    (∀ (i : ℕ) (a b : GrowthRow K G),
      (groupRows pk gk rs g)[i]? = some a → (groupRows pk gk rs g)[i + 1]? = some b →
      b.prev = PVal.num a.measure_sum ∧
      b.growth_abs = PVal.num (b.measure_sum - a.measure_sum) ∧
      (a.measure_sum ≠ 0 →
        b.growth_pct = PVal.num ((b.measure_sum - a.measure_sum) / a.measure_sum * 100))) := by
  refine ⟨groupRows_pairwise pk gk rs g, ?_, ?_⟩
  · intro a ha
    rw [groupRows_eq_chainFrom, chainFrom_getElem?_zero] at ha
    obtain ⟨r, hr0, hmk⟩ := Option.map_eq_some'.mp ha
    subst hmk
    exact ⟨rfl, rfl, rfl⟩
  · intro i a b ha hb
    rw [groupRows_eq_chainFrom] at ha hb
    obtain ⟨ra, hra, hma⟩ := chainFrom_getElem?_shape _ none i a ha
    rw [chainFrom_getElem?_succ _ none i ra hra] at hb
    obtain ⟨rb, hrb, hbmk⟩ := Option.map_eq_some'.mp hb
    subst hbmk
    refine ⟨?_, ?_, ?_⟩
    · rw [hma]
      rfl
    · rw [hma]
      simp [mkGrowth, PVal.sub]
    · intro hne
      rw [hma] at hne ⊢
      simp [mkGrowth, PVal.sub, PVal.div, PVal.mul100, PVal.replaceInfWithNan, hne]

/-- C3: in every growth computation (YoY, QoQ, MoM), no returned
`growth_pct` is `+inf` or `-inf` (infinities are normalized to the NaN
marker before returning), and every row whose shifted `previous_measure` is
zero still carries `growth_abs = measure_sum - 0 = measure_sum` while its
`growth_pct` is the undefined marker NaN. -/
theorem claim_C3_zero_prev_no_infinity (rs : List PreparedRec) :
    (∀ row ∈ VehicleDataProcessor.calculate_yoy_growth rs,
      (row.growth_pct ≠ PVal.pinf ∧ row.growth_pct ≠ PVal.ninf) ∧
      (row.prev = PVal.num 0 →
        row.growth_abs = PVal.num row.measure_sum ∧ row.growth_pct = PVal.nan)) ∧
    (∀ row ∈ GrowthCalculator.calculate_qoq_growth rs,
      (row.growth_pct ≠ PVal.pinf ∧ row.growth_pct ≠ PVal.ninf) ∧
      (row.prev = PVal.num 0 →
        row.growth_abs = PVal.num row.measure_sum ∧ row.growth_pct = PVal.nan)) ∧
    (∀ row ∈ GrowthCalculator.calculate_mom_growth rs,
      (row.growth_pct ≠ PVal.pinf ∧ row.growth_pct ≠ PVal.ninf) ∧
      (row.prev = PVal.num 0 →
        row.growth_abs = PVal.num row.measure_sum ∧ row.growth_pct = PVal.nan)) := by
  unfold VehicleDataProcessor.calculate_yoy_growth GrowthCalculator.calculate_qoq_growth
    GrowthCalculator.calculate_mom_growth
  exact ⟨growthPipeline_rows (fun r => r.year) groupOf rs,
    growthPipeline_rows (fun r => toLex (r.year, r.quarter)) groupOf rs,
    growthPipeline_rows (fun r => r.year_month.data) groupOf rs⟩

theorem claim_C4_witness_listEval :
    groupRows (fun r => r.year) groupOf (VehicleDataProcessor.prepare_data exRecsC4)
      (toLex ("4W".data, "A".data)) = [yoyExRow0, yoyExRow1] := by
  norm_num [groupRows, VehicleDataProcessor.prepare_data, prepareRecord, to_numeric_coerce,
    pad4, pad2, exRecsC4, growthPipeline, aggRows, aggregateBy, groupKeys, groupSum, groupOf,
    List.filter_cons, List.insertionSort, List.orderedInsert, shiftGo, lastMeasure, mkGrowth,
    PVal.sub, PVal.div, PVal.mul100, PVal.replaceInfWithNan, yoyExRow0, yoyExRow1, rowLe]

/-- Witness for C4: on the two-record input (100 in 2021, 150 in 2022 for
one entity), the group's second row has previous_measure 100,
growth_abs 50 and growth_pct 50. -/
theorem claim_C4_witness :
    (groupRows (fun r => r.year) groupOf (VehicleDataProcessor.prepare_data exRecsC4)
        (toLex ("4W".data, "A".data)))[0]? = some yoyExRow0 ∧
    (groupRows (fun r => r.year) groupOf (VehicleDataProcessor.prepare_data exRecsC4)
        (toLex ("4W".data, "A".data)))[1]? = some yoyExRow1 ∧
    yoyExRow1.prev = PVal.num yoyExRow0.measure_sum ∧
    yoyExRow1.growth_abs = PVal.num (yoyExRow1.measure_sum - yoyExRow0.measure_sum) ∧
    yoyExRow1.growth_pct = PVal.num
      ((yoyExRow1.measure_sum - yoyExRow0.measure_sum) / yoyExRow0.measure_sum * 100) ∧
    yoyExRow1.growth_abs = PVal.num 50 ∧ yoyExRow1.growth_pct = PVal.num 50 := by
  have h0 : (groupRows (fun r => r.year) groupOf (VehicleDataProcessor.prepare_data exRecsC4)
      (toLex ("4W".data, "A".data)))[0]? = some yoyExRow0 := by
    rw [claim_C4_witness_listEval]
    rfl
  have h1 : (groupRows (fun r => r.year) groupOf (VehicleDataProcessor.prepare_data exRecsC4)
      (toLex ("4W".data, "A".data)))[1]? = some yoyExRow1 := by
    rw [claim_C4_witness_listEval]
    rfl
  have h := claim_C4_group_shift_structure (fun r => r.year) groupOf
    (VehicleDataProcessor.prepare_data exRecsC4) (toLex ("4W".data, "A".data))
  obtain ⟨hprev, habs, hpct⟩ := h.2.2 0 yoyExRow0 yoyExRow1 h0 h1
  have hne : yoyExRow0.measure_sum ≠ 0 := by norm_num [yoyExRow0]
  refine ⟨h0, h1, hprev, habs, hpct hne, ?_, ?_⟩
  · rw [habs]
    norm_num [yoyExRow0, yoyExRow1]
  · rw [hpct hne]
    norm_num [yoyExRow0, yoyExRow1]

theorem claim_C3_witness_listEval :
    VehicleDataProcessor.calculate_yoy_growth (VehicleDataProcessor.prepare_data exRecsZero)
      = [{ pkey := 2021, gkey := toLex ("4W".data, "A".data), measure_sum := 0,
           prev := PVal.nan, growth_abs := PVal.nan, growth_pct := PVal.nan },
         yoyZeroRow1] := by
  norm_num [VehicleDataProcessor.calculate_yoy_growth, VehicleDataProcessor.prepare_data,
    prepareRecord, to_numeric_coerce, pad4, pad2, exRecsZero, growthPipeline, aggRows,
    aggregateBy, groupKeys, groupSum, groupOf, List.filter_cons, List.insertionSort,
    List.orderedInsert, shiftGo, lastMeasure, mkGrowth, PVal.sub, PVal.div, PVal.mul100,
    PVal.replaceInfWithNan, yoyZeroRow1, rowLe]

/-- Witness for C3: on the input with measure 0 in 2021 and 500 in 2022, the
2022 row has previous_measure 0, growth_abs 500, and growth_pct NaN (never
an infinity). -/
theorem claim_C3_witness :
    (yoyZeroRow1 ∈ VehicleDataProcessor.calculate_yoy_growth
        (VehicleDataProcessor.prepare_data exRecsZero) ∧
      yoyZeroRow1.prev = PVal.num 0) ∧
    (yoyZeroRow1.growth_pct ≠ PVal.pinf ∧ yoyZeroRow1.growth_pct ≠ PVal.ninf) ∧
    yoyZeroRow1.growth_abs = PVal.num yoyZeroRow1.measure_sum ∧
    yoyZeroRow1.growth_pct = PVal.nan ∧ yoyZeroRow1.growth_abs = PVal.num 500 := by
  have hmem : yoyZeroRow1 ∈ VehicleDataProcessor.calculate_yoy_growth
      (VehicleDataProcessor.prepare_data exRecsZero) := by
    rw [claim_C3_witness_listEval]
    simp
  have h := (claim_C3_zero_prev_no_infinity
    (VehicleDataProcessor.prepare_data exRecsZero)).1 yoyZeroRow1 hmem
  exact ⟨⟨hmem, rfl⟩, h.1, (h.2 rfl).1, (h.2 rfl).2, rfl⟩

/-- C10: during preparation, every input row whose registrations value
cannot be parsed as a number is kept (the prepared frame has one row per
input row) and its measure is silently replaced by 0, so the prepared data
always carries a numeric measure. -/
theorem claim_C10_coerce_unparseable_to_zero (rs : List RawRecord) :
    (VehicleDataProcessor.prepare_data rs).length = rs.length ∧
    ∀ r ∈ rs, prepareRecord r ∈ VehicleDataProcessor.prepare_data rs ∧
      (to_numeric_coerce r.registrations = none → (prepareRecord r).registrations = 0) := by
  refine ⟨by simp [VehicleDataProcessor.prepare_data], ?_⟩
  intro r hr
  refine ⟨List.mem_map_of_mem prepareRecord hr, ?_⟩
  intro hnone
  simp [prepareRecord, hnone]

/-- Witness for C10: the unparseable cell of `badRec` is coerced to 0 and
the row is kept. -/
theorem claim_C10_witness :
    (badRec ∈ exRecsBadCell ∧ to_numeric_coerce badRec.registrations = none) ∧
    prepareRecord badRec ∈ VehicleDataProcessor.prepare_data exRecsBadCell ∧
    (prepareRecord badRec).registrations = 0 := by
  have hmem : badRec ∈ exRecsBadCell := by simp [exRecsBadCell]
  have h := (claim_C10_coerce_unparseable_to_zero exRecsBadCell).2 badRec hmem
  exact ⟨⟨hmem, rfl⟩, h.1, h.2 rfl⟩

/-- C9: the growth pipeline is a pure, deterministic transformation: running
the YoY computation twice from the same processor state yields the same
output both times, the method leaves the processor state unchanged, and the
constructor keeps the caller's raw data intact (it only copies it). -/
theorem claim_C9_pipeline_pure (data : List RawRecord) :
    (VehicleDataProcessor.calculate_yoy_growth_run (VehicleDataProcessor.init data)).1
      = (VehicleDataProcessor.calculate_yoy_growth_run
          ((VehicleDataProcessor.calculate_yoy_growth_run
            (VehicleDataProcessor.init data)).2)).1 ∧
    (VehicleDataProcessor.calculate_yoy_growth_run (VehicleDataProcessor.init data)).2
      = VehicleDataProcessor.init data ∧
    (VehicleDataProcessor.init data).raw_data = data :=
  ⟨rfl, rfl, rfl⟩

theorem foldl_min_date_some (ds : List Date) :
    ∀ m : Date, ∃ x, ds.foldl (fun acc d =>
      match acc with
      | none => some d
      | some m0 => some (if d.code < m0.code then d else m0)) (some m) = some x := by
  induction ds with
  | nil => intro m; exact ⟨m, rfl⟩
  | cons e ds ih =>
      intro m
      simpa using ih (if e.code < m.code then e else m)

theorem foldl_max_date_some (ds : List Date) :
    ∀ m : Date, ∃ x, ds.foldl (fun acc d =>
      match acc with
      | none => some d
      | some m0 => some (if m0.code < d.code then d else m0)) (some m) = some x := by
  induction ds with
  | nil => intro m; exact ⟨m, rfl⟩
  | cons e ds ih =>
      intro m
      simpa using ih (if m.code < e.code then e else m)

/-- C5 counterexample: on the empty input collection, `get_summary_stats`
does not return a summary object at all — it raises (formatting the missing
min date fails), so the claim that it returns an empty summary without
error is false. -/
theorem claim_C5_counterexample :
    ¬ ∃ s : SummaryStats,
      VehicleDataProcessor.get_summary_stats [] = Except.ok s := by
  intro ⟨s, hs⟩
  simp [VehicleDataProcessor.get_summary_stats, minDateOpt, maxDateOpt, strftimeOpt] at hs

/-- C5 (amended): on the empty input collection `get_summary_stats` raises
the `NaT` strftime error instead of returning a summary object; on every
non-empty input it does return a summary. -/
theorem claim_C5_empty_raises :
    VehicleDataProcessor.get_summary_stats []
      = Except.error "NaTType does not support strftime" ∧
    ∀ rs : List PreparedRec, rs ≠ [] →
      ∃ s, VehicleDataProcessor.get_summary_stats rs = Except.ok s := by
  constructor
  · rfl
  · intro rs hne
    match rs with
    | [] => exact absurd rfl hne
    | r :: rest =>
        obtain ⟨dmin, hmin⟩ := foldl_min_date_some (rest.map (fun x => x.date)) r.date
        obtain ⟨dmax, hmax⟩ := foldl_max_date_some (rest.map (fun x => x.date)) r.date
        have hmin2 : minDateOpt ((r :: rest).map (fun x => x.date)) = some dmin := by
          simpa [minDateOpt] using hmin
        have hmax2 : maxDateOpt ((r :: rest).map (fun x => x.date)) = some dmax := by
          simpa [maxDateOpt] using hmax
        unfold VehicleDataProcessor.get_summary_stats
        rw [hmin2, hmax2]
        exact ⟨_, rfl⟩

/-- Witness for C5 (amended): a concrete one-record input yields a summary. -/
theorem claim_C5_witness :
    VehicleDataProcessor.prepare_data exRecsBadCell ≠ [] ∧
    ∃ s, VehicleDataProcessor.get_summary_stats (VehicleDataProcessor.prepare_data exRecsBadCell)
      = Except.ok s := by
  have hne : VehicleDataProcessor.prepare_data exRecsBadCell ≠ [] := by
    simp [VehicleDataProcessor.prepare_data, exRecsBadCell]
  exact ⟨hne, claim_C5_empty_raises.2 _ hne⟩

/-- C6: for every non-empty prepared input and every supported granularity,
aggregation sums the measure over exact (period key, category, manufacturer)
matches — each output group's `registrations` is the sum of the measures of
all matching input rows, duplicates included — the grand total over the
groups equals the total over the input rows (conservation), and the three
supported period arguments dispatch to this computation with the month,
quarter and year keys respectively. -/
theorem claim_C6_aggregation_conservation (pk : PreparedRec → String)
    (rs : List PreparedRec) (hne : rs ≠ []) :
    (∀ row ∈ aggregate_by_period_core pk rs,
      row.registrations = ((rs.filter (fun r => pk r = row.period_key ∧
        r.vehicle_category = row.vehicle_category ∧
        r.manufacturer = row.manufacturer)).map (fun r => r.registrations)).sum) ∧
    ((aggregate_by_period_core pk rs).map (fun row => row.registrations)).sum
      = (rs.map (fun r => r.registrations)).sum ∧
    VehicleDataProcessor.aggregate_by_period "month" rs
      = Except.ok (aggregate_by_period_core (fun r => r.year_month) rs) ∧
    VehicleDataProcessor.aggregate_by_period "quarter" rs
      = Except.ok (aggregate_by_period_core (fun r => r.year_quarter) rs) ∧
    VehicleDataProcessor.aggregate_by_period "year" rs
      = Except.ok (aggregate_by_period_core (fun r => toString r.year) rs) := by
  have _hne := hne
  refine ⟨?_, ?_, rfl, rfl, rfl⟩
  · intro row hrow
    rcases List.mem_map.mp hrow with ⟨k, hk, rfl⟩
    dsimp only
    unfold groupSum
    congr 1
    congr 1
    apply List.filter_congr
    intro r _
    simp [Prod.ext_iff]
  · have hmaps : (aggregate_by_period_core pk rs).map (fun row => row.registrations)
        = (groupKeys (fun r => (pk r, r.vehicle_category, r.manufacturer)) rs).map
            (groupSum (fun r => (pk r, r.vehicle_category, r.manufacturer))
              (fun r => r.registrations) rs) := by
      unfold aggregate_by_period_core
      rw [List.map_map]
      rfl
    rw [hmaps]
    refine sum_groupSum_of_cover _ _ _ (List.nodup_dedup _) rs ?_
    intro r hr
    exact List.mem_dedup.mpr (List.mem_map_of_mem _ hr)

/-- Witness for C6: on an input with two duplicate rows (measures 3 and 4
for the same year, category and manufacturer), the aggregation keeps one
group whose sum is 7, and the output total equals the input total. -/
theorem claim_C6_witness :
    VehicleDataProcessor.prepare_data exRecsDup ≠ [] ∧
    ((aggregate_by_period_core (fun r => toString r.year)
        (VehicleDataProcessor.prepare_data exRecsDup)).map (fun row => row.registrations)).sum
      = ((VehicleDataProcessor.prepare_data exRecsDup).map (fun r => r.registrations)).sum ∧
    (aggregate_by_period_core (fun r => toString r.year)
        (VehicleDataProcessor.prepare_data exRecsDup)).map (fun row => row.registrations)
      = [7] := by
  have hne : VehicleDataProcessor.prepare_data exRecsDup ≠ [] := by
    simp [VehicleDataProcessor.prepare_data, exRecsDup]
  have h := claim_C6_aggregation_conservation (fun r => toString r.year)
    (VehicleDataProcessor.prepare_data exRecsDup) hne
  refine ⟨hne, h.2.1, ?_⟩
  norm_num [aggregate_by_period_core, groupKeys, groupSum, VehicleDataProcessor.prepare_data,
    prepareRecord, to_numeric_coerce, exRecsDup, List.filter_cons, pad4, pad2]

theorem drop_take_eq_range_getD (l : List ℚ) (a w : ℕ) (h : a + w ≤ l.length) :
    (l.drop a).take w = (List.range w).map (fun j => l.getD (a + j) 0) := by
  apply List.ext_getElem?
  intro i
  by_cases hi : i < w
  · rw [List.getElem?_take_of_lt hi, List.getElem?_drop]
    rw [List.getElem?_map, List.getElem?_range hi]
    have hlt : a + i < l.length := by omega
    simp [List.getD_eq_getElem?_getD, List.getElem?_eq_getElem hlt]
  · have h1 : ((l.drop a).take w)[i]? = none := by
      apply List.getElem?_eq_none
      have : ((l.drop a).take w).length ≤ w := by
        simp [List.length_take]
      omega
    have h2 : ((List.range w).map (fun j => l.getD (a + j) 0))[i]? = none := by
      apply List.getElem?_eq_none
      simpa using not_lt.mp hi
    rw [h1, h2]

/-- C7: the moving average is a centered rolling mean: one output value per
input position; a position whose centered window of length `window` (the
window starting at `i - window/2`, pandas centering) does not fit inside
the series is undefined (`none`, never a clamped or partial average); a
position whose window fits carries the mean of the `window` values
centered there; and concretely
`movingAverage [10,20,30,40,50] 3 = [none, 20, 30, 40, none]`. -/
theorem claim_C7_moving_average (data : List ℚ) (w : ℕ) (hw : 0 < w) :
    (GrowthCalculator.calculate_moving_average data w).length = data.length ∧
    (∀ i : ℕ, i < data.length → (i < w / 2 ∨ data.length ≤ i + (w - 1) / 2) →
      (GrowthCalculator.calculate_moving_average data w)[i]? = some none) ∧
    (∀ i : ℕ, w / 2 ≤ i → i + (w - 1) / 2 < data.length →
      (GrowthCalculator.calculate_moving_average data w)[i]? =
        some (some ((((List.range w).map
          (fun j => data.getD (i - w / 2 + j) 0)).sum) / (w : ℚ)))) ∧
    GrowthCalculator.calculate_moving_average [10, 20, 30, 40, 50] 3
      = [none, some 20, some 30, some 40, none] := by
  have _hw := hw
  refine ⟨by simp [GrowthCalculator.calculate_moving_average], ?_, ?_, ?_⟩
  · intro i hi hedge
    unfold GrowthCalculator.calculate_moving_average
    rw [List.getElem?_map, List.getElem?_range hi]
    have hcond : ¬ (w / 2 ≤ i ∧ i + (w - 1) / 2 < data.length) := by
      rcases hedge with h | h
      · intro hc; omega
      · intro hc; omega
    simp [hcond]
  · intro i h1 h2
    have hi : i < data.length := by omega
    unfold GrowthCalculator.calculate_moving_average
    rw [List.getElem?_map, List.getElem?_range hi]
    have hcond : w / 2 ≤ i ∧ i + (w - 1) / 2 < data.length := ⟨h1, h2⟩
    have hwin : (i - w / 2) + w ≤ data.length := by omega
    simp only [Option.map_some']
    rw [if_pos hcond, drop_take_eq_range_getD data (i - w / 2) w hwin]
  · have hrange : List.range 5 = [0, 1, 2, 3, 4] := rfl
    norm_num [GrowthCalculator.calculate_moving_average, hrange, List.take_succ_cons,
      List.drop_succ_cons, List.sum_cons]

/-- Witness for C7: applying the theorem at the concrete series
[10,20,30,40,50] with window 3 — position 0 is an edge (undefined), position
1 carries the centered mean, and the full output is as the claim states. -/
theorem claim_C7_witness :
    (0 : ℕ) < 3 ∧
    (GrowthCalculator.calculate_moving_average [10, 20, 30, 40, 50] 3)[0]? = some none ∧
    (GrowthCalculator.calculate_moving_average [10, 20, 30, 40, 50] 3)[1]? =
      some (some ((((List.range 3).map
        (fun j => ([10, 20, 30, 40, 50] : List ℚ).getD (1 - 3 / 2 + j) 0)).sum) / (3 : ℚ))) ∧
    GrowthCalculator.calculate_moving_average [10, 20, 30, 40, 50] 3
      = [none, some 20, some 30, some 40, none] := by
  have h := claim_C7_moving_average [10, 20, 30, 40, 50] 3 (by norm_num)
  refine ⟨by norm_num, ?_, ?_, h.2.2.2⟩
  · exact h.2.1 0 (by norm_num) (by norm_num)
  · exact h.2.2.1 1 (by norm_num) (by norm_num)

/-- C8 counterexample: on the all-negative series [-100, -85, -95] with
minPeriods 3, the code compares the slope (2.5) against the absolute
threshold |mean|·5% (14/3) and returns stable, while the claim's literal
signed threshold (5% of the mean, −14/3) would classify it as increasing;
the claim as stated is therefore false on this input. -/
theorem claim_C8_counterexample :
    GrowthCalculator.detect_trend [some (-100), some (-85), some (-95)] 3
      = Except.ok Trend.stable ∧
    spec_classifyTrend [some (-100), some (-85), some (-95)] 3 = Trend.increasing ∧
    GrowthCalculator.detect_trend [some (-100), some (-85), some (-95)] 3
      ≠ Except.ok (spec_classifyTrend [some (-100), some (-85), some (-95)] 3) := by
  have hclean : List.filterMap id [some (-100 : ℚ), some (-85), some (-95)]
      = [-100, -85, -95] := rfl
  have hslope : olsSlope [-100, -85, -95] = 5 / 2 := by
    unfold olsSlope
    have hr : List.range ([-100, -85, -95] : List ℚ).length = [0, 1, 2] := rfl
    rw [hr]
    norm_num
  have h1 : GrowthCalculator.detect_trend [some (-100), some (-85), some (-95)] 3
      = Except.ok Trend.stable := by
    norm_num [GrowthCalculator.detect_trend, hclean, hslope, abs_neg, abs_of_nonneg]
  have h2 : spec_classifyTrend [some (-100), some (-85), some (-95)] 3
      = Trend.increasing := by
    norm_num [spec_classifyTrend, hclean, hslope]
  refine ⟨h1, h2, ?_⟩
  rw [h1, h2]
  simp

/-- C8 (amended): `detect_trend` returns insufficient_data exactly when
fewer than `min_periods` non-missing values exist; if both length checks
pass but the cleaned series is empty (only possible with `min_periods = 0`)
it raises the np.polyfit empty-vector error instead of returning a trend;
and otherwise it classifies by the OLS slope against a threshold of 5% of
the absolute mean value (the code takes `abs(mean * 0.05)`, not the signed
5% of the mean), agreeing with the spec-worded classifier amended to the
absolute threshold.  The two concrete scenarios hold: [100,110,120,130,140]
is increasing and [100,101,99,100,101] is stable (minPeriods 3). -/
theorem claim_C8_trend_classification :
    (∀ (data : List (Option ℚ)) (min_periods : ℕ),
      GrowthCalculator.detect_trend data min_periods
        = if min_periods = 0 ∧ data.filterMap id = [] then
            Except.error "expected non-empty vector for x"
          else Except.ok (spec_classifyTrend_absThreshold data min_periods)) ∧
    GrowthCalculator.detect_trend
      [some 100, some 110, some 120, some 130, some 140] 3
        = Except.ok Trend.increasing ∧
    GrowthCalculator.detect_trend
      [some 100, some 101, some 99, some 100, some 101] 3
        = Except.ok Trend.stable := by
  refine ⟨?_, ?_, ?_⟩
  · intro data minp
    unfold GrowthCalculator.detect_trend spec_classifyTrend_absThreshold
    by_cases h1 : data.length < minp
    · have hmp : ¬ (minp = 0 ∧ data.filterMap id = []) := by
        rintro ⟨hm, -⟩
        omega
      have h2 : (data.filterMap id).length < minp :=
        lt_of_le_of_lt (List.length_filterMap_le id data) h1
      rw [if_pos h1, if_neg hmp, if_pos h2]
    · by_cases h2 : (data.filterMap id).length < minp
      · have hmp : ¬ (minp = 0 ∧ data.filterMap id = []) := by
          rintro ⟨hm, hl⟩
          rw [hl] at h2
          simp [hm] at h2
        rw [if_neg h1, if_pos h2, if_neg hmp, if_pos h2]
      · by_cases h3 : (data.filterMap id).length = 0
        · have hmp : minp = 0 ∧ data.filterMap id = [] := by
            refine ⟨by omega, ?_⟩
            exact List.length_eq_zero.mp h3
          rw [if_neg h1, if_neg h2, if_pos h3, if_pos hmp]
        · have hmp : ¬ (minp = 0 ∧ data.filterMap id = []) := by
            rintro ⟨-, hl⟩
            rw [hl] at h3
            simp at h3
          rw [if_neg h1, if_neg h2, if_neg h3, if_neg hmp, if_neg h2]
          dsimp only
          split_ifs <;> rfl
  · have hclean : List.filterMap id [some (100 : ℚ), some 110, some 120, some 130, some 140]
        = [100, 110, 120, 130, 140] := rfl
    have hslope : olsSlope [100, 110, 120, 130, 140] = 10 := by
      unfold olsSlope
      have hr : List.range ([100, 110, 120, 130, 140] : List ℚ).length
          = [0, 1, 2, 3, 4] := rfl
      rw [hr]
      norm_num
    norm_num [GrowthCalculator.detect_trend, hclean, hslope, abs_of_nonneg]
  · have hclean : List.filterMap id [some (100 : ℚ), some 101, some 99, some 100, some 101]
        = [100, 101, 99, 100, 101] := rfl
    have hslope : olsSlope [100, 101, 99, 100, 101] = 1 / 10 := by
      unfold olsSlope
      have hr : List.range ([100, 101, 99, 100, 101] : List ℚ).length
          = [0, 1, 2, 3, 4] := rfl
      rw [hr]
      norm_num
    norm_num [GrowthCalculator.detect_trend, hclean, hslope, abs_of_nonneg]

theorem marketShareFor_row_total (pk : PreparedRec → String) (rs : List PreparedRec)
    (md : (String × String × String) × ℚ)
    (hmd : md ∈ aggregateBy (fun r => (pk r, r.vehicle_category, r.manufacturer))
      (fun r => r.registrations) rs) :
    lookupTotal (aggregateBy (fun x => (x.1.1, x.1.2.1)) (fun x => x.2)
        (aggregateBy (fun r => (pk r, r.vehicle_category, r.manufacturer))
          (fun r => r.registrations) rs))
      (md.1.1, md.1.2.1)
    = groupSum (fun x => (x.1.1, x.1.2.1)) (fun x => x.2)
        (aggregateBy (fun r => (pk r, r.vehicle_category, r.manufacturer))
          (fun r => r.registrations) rs)
      (md.1.1, md.1.2.1) := by
  have hk : (md.1.1, md.1.2.1) ∈ (aggregateBy
      (fun r => (pk r, r.vehicle_category, r.manufacturer))
        (fun r => r.registrations) rs).map (fun x => (x.1.1, x.1.2.1)) := by
    exact List.mem_map_of_mem _ hmd
  unfold lookupTotal
  rw [aggregateBy_find? (fun x : (String × String × String) × ℚ => (x.1.1, x.1.2.1))
    (fun x => x.2) _ (md.1.1, md.1.2.1) hk]
  rfl

theorem marketShareFor_rows (pk : PreparedRec → String) (rs : List PreparedRec)
    (hpos : ∀ r ∈ rs, 0 ≤ r.registrations) :
    ∀ row ∈ marketShareFor pk rs,
      (row.market_share_pct ≠ PVal.pinf ∧ row.market_share_pct ≠ PVal.ninf) ∧
      (row.category_total = 0 → row.market_share_pct = PVal.nan) := by
  intro row hrow
  unfold marketShareFor at hrow
  rcases List.mem_map.mp hrow with ⟨md, hmd, rfl⟩
  have hpos2 : ∀ x ∈ aggregateBy (fun r => (pk r, r.vehicle_category, r.manufacturer))
      (fun r => r.registrations) rs, 0 ≤ x.2 := by
    intro x hx
    rw [aggregateBy_mem _ _ _ x hx]
    apply List.sum_nonneg
    intro q hq
    rcases List.mem_map.mp hq with ⟨r, hr, rfl⟩
    exact hpos r (List.mem_of_mem_filter hr)
  have htot := marketShareFor_row_total pk rs md hmd
  simp only [mkShareRow]
  by_cases ht : lookupTotal (aggregateBy (fun x => (x.1.1, x.1.2.1)) (fun x => x.2)
      (aggregateBy (fun r => (pk r, r.vehicle_category, r.manufacturer))
        (fun r => r.registrations) rs)) (md.1.1, md.1.2.1) = 0
  · have hsum0 : (((aggregateBy (fun r => (pk r, r.vehicle_category, r.manufacturer))
        (fun r => r.registrations) rs).filter
          (fun x => (x.1.1, x.1.2.1) = (md.1.1, md.1.2.1))).map (fun x => x.2)).sum = 0 := by
      rw [htot] at ht
      simpa [groupSum] using ht
    have hzero : md.2 = 0 := by
      refine List.all_zero_of_le_zero_le_of_sum_eq_zero ?_ hsum0 ?_
      · intro q hq
        rcases List.mem_map.mp hq with ⟨x, hx, rfl⟩
        exact hpos2 x (List.mem_of_mem_filter hx)
      · exact List.mem_map_of_mem _ (List.mem_filter.mpr ⟨hmd, by simp⟩)
    rw [ht, hzero]
    refine ⟨⟨?_, ?_⟩, fun _ => ?_⟩ <;> simp [PVal.div, PVal.mul100]
  · refine ⟨⟨?_, ?_⟩, fun h0 => absurd h0 ht⟩ <;> simp [PVal.div, PVal.mul100, ht]

/-- C1 (amended): a (period, category) group whose category_total is zero is
not excluded from the market-share output; with non-negative input measures
its rows carry the undefined marker NaN (0/0) as share_pct, and no returned
share_pct is a signed infinity. -/
theorem claim_C1_zero_total_not_excluded (period : String) (rs : List PreparedRec)
    (out : List MarketShareRow)
    (hout : VehicleDataProcessor.get_market_share period rs = Except.ok out)
    (hpos : ∀ r ∈ rs, 0 ≤ r.registrations) :
    ∀ row ∈ out,
      (row.market_share_pct ≠ PVal.pinf ∧ row.market_share_pct ≠ PVal.ninf) ∧
      (row.category_total = 0 → row.market_share_pct = PVal.nan) := by
  unfold VehicleDataProcessor.get_market_share at hout
  split_ifs at hout with h1 h2 h3
  · injection hout with h
    subst h
    exact marketShareFor_rows _ rs hpos
  · injection hout with h
    subst h
    exact marketShareFor_rows _ rs hpos
  · injection hout with h
    subst h
    exact marketShareFor_rows _ rs hpos

theorem msZero_eval :
    VehicleDataProcessor.get_market_share "year"
      (VehicleDataProcessor.prepare_data exRecsZeroTotal) = Except.ok [msZeroRow] := by
  norm_num [VehicleDataProcessor.get_market_share, marketShareFor, mkShareRow, aggregateBy,
    groupKeys, groupSum, lookupTotal, VehicleDataProcessor.prepare_data, prepareRecord,
    to_numeric_coerce, exRecsZeroTotal, msZeroRow, PVal.div, PVal.mul100, pad4, pad2,
    List.filter_cons]
  decide

/-- C1 counterexample: on an input whose single (2021, 4W) group has
category_total 0, `get_market_share` returns that group's row (with share
NaN) instead of excluding it — the returned collection is not empty and
carries a NaN share, so the claim as stated is false. -/
theorem claim_C1_counterexample :
    VehicleDataProcessor.get_market_share "year"
        (VehicleDataProcessor.prepare_data exRecsZeroTotal) = Except.ok [msZeroRow] ∧
    msZeroRow.category_total = 0 ∧ msZeroRow.market_share_pct = PVal.nan :=
  ⟨msZero_eval, rfl, rfl⟩

/-- Witness for C1 (amended): the zero-total row of the concrete input is in
the output, its share is NaN, and it is not an infinity. -/
theorem claim_C1_witness :
    (VehicleDataProcessor.get_market_share "year"
        (VehicleDataProcessor.prepare_data exRecsZeroTotal) = Except.ok [msZeroRow] ∧
      (∀ r ∈ VehicleDataProcessor.prepare_data exRecsZeroTotal, 0 ≤ r.registrations) ∧
      msZeroRow ∈ [msZeroRow]) ∧
    (msZeroRow.market_share_pct ≠ PVal.pinf ∧ msZeroRow.market_share_pct ≠ PVal.ninf) ∧
    (msZeroRow.category_total = 0 → msZeroRow.market_share_pct = PVal.nan) := by
  have hpos : ∀ r ∈ VehicleDataProcessor.prepare_data exRecsZeroTotal, 0 ≤ r.registrations := by
    norm_num [VehicleDataProcessor.prepare_data, prepareRecord, to_numeric_coerce,
      exRecsZeroTotal]
  have hmem : msZeroRow ∈ [msZeroRow] := by simp
  exact ⟨⟨msZero_eval, hpos, hmem⟩,
    claim_C1_zero_total_not_excluded "year" (VehicleDataProcessor.prepare_data exRecsZeroTotal)
      [msZeroRow] msZero_eval hpos msZeroRow hmem⟩


theorem sum_map_mul_const {α : Type} (l : List α) (f : α → ℚ) (c : ℚ) :
    (l.map (fun x => f x * c)).sum = (l.map f).sum * c := by
  induction l with
  | nil => simp
  | cons a l ih => simp [ih, add_mul]

theorem marketShareFor_group_sum (pk : PreparedRec → String) (rs : List PreparedRec)
    (p c : String) (row0 : MarketShareRow) (h0 : row0 ∈ marketShareFor pk rs)
    (hp : row0.period_key = p) (hc : row0.vehicle_category = c)
    (hT : row0.category_total ≠ 0) :
    PVal.sumList (((marketShareFor pk rs).filter
        (fun row => row.period_key = p ∧ row.vehicle_category = c)).map
      (fun row => row.market_share_pct)) = PVal.num 100 := by
  unfold marketShareFor at h0 ⊢
  rcases List.mem_map.mp h0 with ⟨md0, hmd0, hb⟩
  have hp0 : md0.1.1 = p := by
    rw [← hb] at hp
    exact hp
  have hc0 : md0.1.2.1 = c := by
    rw [← hb] at hc
    exact hc
  have hpc0 : (md0.1.1, md0.1.2.1) = (p, c) := by rw [hp0, hc0]
  have htot0 := marketShareFor_row_total pk rs md0 hmd0
  have hT2 : groupSum (fun x : (String × String × String) × ℚ => (x.1.1, x.1.2.1))
      (fun x => x.2)
      (aggregateBy (fun r => (pk r, r.vehicle_category, r.manufacturer))
        (fun r => r.registrations) rs) (p, c) ≠ 0 := by
    rw [← hpc0, ← htot0]
    rw [← hb] at hT
    exact hT
  rw [List.filter_map, List.map_map]
  have hfc := List.filter_congr (l := aggregateBy
      (fun r => (pk r, r.vehicle_category, r.manufacturer)) (fun r => r.registrations) rs)
    (p := (fun row : MarketShareRow =>
        decide (row.period_key = p ∧ row.vehicle_category = c)) ∘
      mkShareRow (aggregateBy (fun md => (md.1.1, md.1.2.1)) (fun md => md.2)
        (aggregateBy (fun r => (pk r, r.vehicle_category, r.manufacturer))
          (fun r => r.registrations) rs)))
    (q := fun x => decide ((x.1.1, x.1.2.1) = (p, c)))
    (fun md _ => by simp [mkShareRow, Prod.ext_iff])
  rw [hfc]
  have hmc := List.map_congr_left
    (l := (aggregateBy (fun r => (pk r, r.vehicle_category, r.manufacturer))
        (fun r => r.registrations) rs).filter
      (fun x => decide ((x.1.1, x.1.2.1) = (p, c))))
    (f := (fun row : MarketShareRow => row.market_share_pct) ∘
      mkShareRow (aggregateBy (fun md => (md.1.1, md.1.2.1)) (fun md => md.2)
        (aggregateBy (fun r => (pk r, r.vehicle_category, r.manufacturer))
          (fun r => r.registrations) rs)))
    (g := fun md => PVal.num (md.2 / groupSum
      (fun x : (String × String × String) × ℚ => (x.1.1, x.1.2.1)) (fun x => x.2)
      (aggregateBy (fun r => (pk r, r.vehicle_category, r.manufacturer))
        (fun r => r.registrations) rs) (p, c) * 100))
    (fun md hmdf => by
      have hmdpc : (md.1.1, md.1.2.1) = (p, c) := by
        simpa using (List.mem_filter.mp hmdf).2
      have hlt := marketShareFor_row_total pk rs md (List.mem_of_mem_filter hmdf)
      rw [hmdpc] at hlt
      show PVal.mul100 (PVal.div (PVal.num md.2) (PVal.num _)) = _
      rw [hmdpc, hlt]
      simp [PVal.div, PVal.mul100, hT2])
  rw [hmc]
  have hcomp : (fun md : (String × String × String) × ℚ => PVal.num (md.2 / groupSum
      (fun x : (String × String × String) × ℚ => (x.1.1, x.1.2.1)) (fun x => x.2)
      (aggregateBy (fun r => (pk r, r.vehicle_category, r.manufacturer))
        (fun r => r.registrations) rs) (p, c) * 100))
      = PVal.num ∘ (fun md : (String × String × String) × ℚ => md.2 / groupSum
        (fun x : (String × String × String) × ℚ => (x.1.1, x.1.2.1)) (fun x => x.2)
        (aggregateBy (fun r => (pk r, r.vehicle_category, r.manufacturer))
          (fun r => r.registrations) rs) (p, c) * 100) := rfl
  rw [hcomp, ← List.map_map, PVal.sumList_map_num]
  congr 1
  have hre := List.map_congr_left
    (l := (aggregateBy (fun r => (pk r, r.vehicle_category, r.manufacturer))
        (fun r => r.registrations) rs).filter
      (fun x => decide ((x.1.1, x.1.2.1) = (p, c))))
    (f := fun md : (String × String × String) × ℚ => md.2 / groupSum
      (fun x : (String × String × String) × ℚ => (x.1.1, x.1.2.1)) (fun x => x.2)
      (aggregateBy (fun r => (pk r, r.vehicle_category, r.manufacturer))
        (fun r => r.registrations) rs) (p, c) * 100)
    (g := fun md : (String × String × String) × ℚ => md.2 * (100 / groupSum
      (fun x : (String × String × String) × ℚ => (x.1.1, x.1.2.1)) (fun x => x.2)
      (aggregateBy (fun r => (pk r, r.vehicle_category, r.manufacturer))
        (fun r => r.registrations) rs) (p, c)))
    (fun md _ => by ring)
  rw [hre, sum_map_mul_const]
  have hTsum : (((aggregateBy (fun r => (pk r, r.vehicle_category, r.manufacturer))
        (fun r => r.registrations) rs).filter
      (fun x => decide ((x.1.1, x.1.2.1) = (p, c)))).map (fun x => x.2)).sum
      = groupSum (fun x : (String × String × String) × ℚ => (x.1.1, x.1.2.1)) (fun x => x.2)
        (aggregateBy (fun r => (pk r, r.vehicle_category, r.manufacturer))
          (fun r => r.registrations) rs) (p, c) := rfl
  rw [hTsum, mul_comm, div_mul_cancel₀ _ hT2]

/-- C2: in the market-share output, for every (period_key, category) group
that is present (witnessed by one of its rows) and whose stored
category_total is non-zero, the shares of that group's rows sum to exactly
100 — category_total is by construction the sum of the group rows'
measures, so the quotients telescope to 100 with no floating-point error in
the rational model (hence well within the claimed 1e-6 tolerance). -/
theorem claim_C2_shares_sum_to_100 (period : String) (rs : List PreparedRec)
    (out : List MarketShareRow)
    (hout : VehicleDataProcessor.get_market_share period rs = Except.ok out)
    (p c : String) (row0 : MarketShareRow) (h0 : row0 ∈ out)
    (hp : row0.period_key = p) (hc : row0.vehicle_category = c)
    (hT : row0.category_total ≠ 0) :
    PVal.sumList ((out.filter
        (fun row => row.period_key = p ∧ row.vehicle_category = c)).map
      (fun row => row.market_share_pct)) = PVal.num 100 := by
  unfold VehicleDataProcessor.get_market_share at hout
  split_ifs at hout with h1 h2 h3
  · injection hout with h
    subst h
    exact marketShareFor_group_sum _ rs p c row0 h0 hp hc hT
  · injection hout with h
    subst h
    exact marketShareFor_group_sum _ rs p c row0 h0 hp hc hT
  · injection hout with h
    subst h
    exact marketShareFor_group_sum _ rs p c row0 h0 hp hc hT

theorem msTwoMan_eval :
    VehicleDataProcessor.get_market_share "year"
      (VehicleDataProcessor.prepare_data exRecsTwoMan) = Except.ok [msRowA, msRowB] := by
  have hts : toString (2021 : ℕ) = "2021" := by decide
  have hded : [("2021", "4W", "A"), ("2021", "4W", "B")].dedup
      = [("2021", "4W", "A"), ("2021", "4W", "B")] := by decide
  have hmd : aggregateBy (fun r => (toString r.year, r.vehicle_category, r.manufacturer))
      (fun r => r.registrations) (VehicleDataProcessor.prepare_data exRecsTwoMan)
      = [(("2021", "4W", "A"), 60), (("2021", "4W", "B"), 40)] := by
    norm_num [aggregateBy, groupKeys, groupSum, VehicleDataProcessor.prepare_data,
      prepareRecord, to_numeric_coerce, exRecsTwoMan, List.filter_cons, hts, hded]
    simp
  have htots : aggregateBy (fun md : (String × String × String) × ℚ => (md.1.1, md.1.2.1))
      (fun md => md.2) [(("2021", "4W", "A"), (60 : ℚ)), (("2021", "4W", "B"), 40)]
      = [(("2021", "4W"), 100)] := by
    norm_num [aggregateBy, groupKeys, groupSum, List.filter_cons]
  show Except.ok (marketShareFor (fun r => toString r.year)
    (VehicleDataProcessor.prepare_data exRecsTwoMan)) = Except.ok [msRowA, msRowB]
  unfold marketShareFor
  norm_num [hmd, htots, mkShareRow, lookupTotal, msRowA, msRowB, PVal.div, PVal.mul100]

/-- Witness for C2: on the two-manufacturer input (60 and 40 in the same
year and category), the group's shares are 60% and 40% and sum to 100. -/
theorem claim_C2_witness :
    (VehicleDataProcessor.get_market_share "year"
        (VehicleDataProcessor.prepare_data exRecsTwoMan) = Except.ok [msRowA, msRowB] ∧
      msRowA ∈ [msRowA, msRowB] ∧ msRowA.period_key = "2021" ∧
      msRowA.vehicle_category = "4W" ∧ msRowA.category_total ≠ 0) ∧
    PVal.sumList (([msRowA, msRowB].filter
        (fun row => row.period_key = "2021" ∧ row.vehicle_category = "4W")).map
      (fun row => row.market_share_pct)) = PVal.num 100 ∧
    msRowA.market_share_pct = PVal.num 60 ∧ msRowB.market_share_pct = PVal.num 40 := by
  have hmem : msRowA ∈ [msRowA, msRowB] := by simp
  have hTne : msRowA.category_total ≠ 0 := by norm_num [msRowA]
  refine ⟨⟨msTwoMan_eval, hmem, rfl, rfl, hTne⟩, ?_, rfl, rfl⟩
  exact claim_C2_shares_sum_to_100 "year" (VehicleDataProcessor.prepare_data exRecsTwoMan)
    [msRowA, msRowB] msTwoMan_eval "2021" "4W" msRowA hmem rfl rfl hTne
